import Mathlib

/-!
Verification of the attributed-body decoder of `packages/imessage-sdk/src/utils.ts`
(`parseAttributedBody`).  The JavaScript function receives an optional byte buffer,
decodes it as UTF-8 (invalid sequences become U+FFFD), and extracts the plain text
of a message with a two-stage heuristic:

* stage 1: `split("NSNumber")[0]`, then `split("NSString")[1]`, then
  `split("NSDictionary")[0]`; if the remaining span is longer than 18 UTF-16 code
  units, return `span.substring(6, span.length - 12).trim()`;
* stage 2 (reached only through the marker-absent exits): the regex
  `NSString[^\x00]*?\x00([^\x00]+)` applied to the current (possibly truncated)
  value of the working string, returning the captured group trimmed.

JavaScript strings are sequences of UTF-16 code units; we model them as `List Nat`
of code units, and byte buffers as `List Nat` of bytes.  All definitions are
structurally recursive so that concrete instances evaluate by `decide`.
-/

set_option maxRecDepth 20000

/-- Code units of an ASCII/BMP string literal (UTF-16 code units as `Nat`). -/
def asciiUnits (str : String) : List Nat := str.data.map Char.toNat

/-- The literal marker `"NSNumber"`. -/
def nsNumber : List Nat := asciiUnits "NSNumber"

/-- The literal marker `"NSString"`. -/
def nsString : List Nat := asciiUnits "NSString"

/-- The literal marker `"NSDictionary"`. -/
def nsDictionary : List Nat := asciiUnits "NSDictionary"

/-- `leadsWith t s` is true when `t` is a leading segment of `s`
(JavaScript `s.startsWith(t)`). -/
def leadsWith : List Nat → List Nat → Bool
  | [], _ => true
  | _ :: _, [] => false
  | a :: as, b :: bs => a == b && leadsWith as bs

/-- `subSpan t s` says `t` occurs contiguously inside `s`
(JavaScript `s.includes(t)` as a proposition). -/
def subSpan (t s : List Nat) : Prop := ∃ u v, s = u ++ t ++ v

/-- First occurrence of `sep` in `s`: returns the part strictly before the first
occurrence and the part strictly after it, or `none` when `sep` does not occur.
`s.split(sep)[0]` is the first component; the JavaScript split is obtained by
iterating on the second component. -/
def splitFirst (sep : List Nat) : List Nat → Option (List Nat × List Nat)
  | [] => none
  | c :: rest =>
    if leadsWith sep (c :: rest) then some ([], (c :: rest).drop sep.length)
    else
      match splitFirst sep rest with
      | some (p, q) => some (c :: p, q)
      | none => none

/-- `s.split(sep)[0]`: everything before the first occurrence of `sep`,
or all of `s` when `sep` does not occur. -/
def part0 (sep s : List Nat) : List Nat :=
  match splitFirst sep s with
  | some (p, _) => p
  | none => s

/-- The code units removed by JavaScript `String.prototype.trim`
(ECMA-262 WhiteSpace and LineTerminator). -/
def isJsWs (c : Nat) : Bool :=
  c == 0x09 || c == 0x0A || c == 0x0B || c == 0x0C || c == 0x0D || c == 0x20 ||
  c == 0xA0 || c == 0x1680 || (0x2000 ≤ c && c ≤ 0x200A) || c == 0x2028 ||
  c == 0x2029 || c == 0x202F || c == 0x205F || c == 0x3000 || c == 0xFEFF

/-- Remove trailing JavaScript whitespace. -/
def dropTrailingWs (l : List Nat) : List Nat :=
  (l.reverse.dropWhile isJsWs).reverse

/-- JavaScript `String.prototype.trim`. -/
def jsTrim (l : List Nat) : List Nat :=
  dropTrailingWs (l.dropWhile isJsWs)

/-- One attempt of the regex `NSString[^\x00]*?\x00([^\x00]+)` per `NSString`
occurrence, scanned left to right: after an occurrence, the lazy `[^\x00]*?`
followed by `\x00` reaches exactly the first NUL after the occurrence, and the
greedy `([^\x00]+)` captures the maximal nonempty NUL-free run after that NUL.
If the run is empty the engine moves on to the next occurrence.  The fuel
argument only makes the recursion structural; `regexScan` supplies `s.length`,
which exceeds the number of `NSString` occurrences. -/
def regexScanAux : Nat → List Nat → Option (List Nat)
  | 0, _ => none
  | Nat.succ fuel, s =>
    match splitFirst nsString s with
    | none => none
    | some (_, rest) =>
      match splitFirst [0] rest with
      | none => none
      | some (_, afterNul) =>
        if afterNul.takeWhile (fun c => c != 0) = [] then regexScanAux fuel rest
        else some (afterNul.takeWhile (fun c => c != 0))

/-- Leftmost match of `/NSString[^\x00]*?\x00([^\x00]+)/` on `s`, returning the
captured group. -/
def regexScan (s : List Nat) : Option (List Nat) :=
  regexScanAux s.length s

/-- The fallback branch of `parseAttributedBody`:
`const match = ab.match(/NSString[^\x00]*?\x00([^\x00]+)/);`
`if (match?.[1]) return match[1].trim(); return null;`
(the captured group is nonempty, hence always truthy). -/
def stage2 (s : List Nat) : Option (List Nat) :=
  match regexScan s with
  | some cap => some (jsTrim cap)
  | none => none

/-- The body of `parseAttributedBody` after UTF-8 decoding.  Each `match` on
`splitFirst` mirrors an `includes` test followed by `split(...)[0]` or
`split(...)[1]` on the working string `attributedBody`; the fall-through
branches apply the regex to the current (already truncated) working string,
exactly as the JavaScript does. -/
def parseText (s : List Nat) : Option (List Nat) :=
  match splitFirst nsNumber s with
  | none => stage2 s
  | some (p, _) =>
    match splitFirst nsString p with
    | none => stage2 p
    | some (_, post) =>
      match splitFirst nsDictionary (part0 nsString post) with
      | none => stage2 (part0 nsString post)
      | some (span, _) =>
        if 18 < span.length then
          some (jsTrim ((span.take (span.length - 12)).drop 6))
        else stage2 span

/-- Decoder state of the WHATWG UTF-8 decoder (Node `buffer.toString("utf8")`):
number of continuation bytes still needed, the partial code point, and the
admissible range for the next byte. -/
structure Utf8State where
  needed : Nat
  acc : Nat
  lower : Nat
  upper : Nat

/-- Initial decoder state. -/
def utf8Init : Utf8State := ⟨0, 0, 0x80, 0xBF⟩

/-- Handle one byte in the start state: ASCII is emitted, lead bytes open a
multi-byte sequence, and invalid bytes become U+FFFD. -/
def utf8StartByte (b : Nat) : List Nat × Utf8State :=
  if b ≤ 0x7F then ([b], utf8Init)
  else if b ≤ 0xC1 then ([0xFFFD], utf8Init)
  else if b ≤ 0xDF then ([], ⟨1, b % 0x20, 0x80, 0xBF⟩)
  else if b ≤ 0xEF then
    ([], ⟨2, b % 0x10, if b = 0xE0 then 0xA0 else 0x80, if b = 0xED then 0x9F else 0xBF⟩)
  else if b ≤ 0xF4 then
    ([], ⟨3, b % 0x8, if b = 0xF0 then 0x90 else 0x80, if b = 0xF4 then 0x8F else 0xBF⟩)
  else ([0xFFFD], utf8Init)

/-- UTF-16 code units of a Unicode scalar value (astral values become a
surrogate pair, as in a JavaScript string). -/
def utf16Units (v : Nat) : List Nat :=
  if v < 0x10000 then [v]
  else [0xD800 + (v - 0x10000) / 0x400, 0xDC00 + (v - 0x10000) % 0x400]

/-- WHATWG UTF-8 decoding, one byte at a time.  An out-of-range continuation
byte emits U+FFFD and reprocesses the byte in the start state (maximal-subpart
replacement); a truncated sequence at end of input emits one U+FFFD. -/
def utf8DecodeAux : Utf8State → List Nat → List Nat
  | st, [] => if st.needed = 0 then [] else [0xFFFD]
  | st, b :: rest =>
    if st.needed = 0 then
      (utf8StartByte b).1 ++ utf8DecodeAux (utf8StartByte b).2 rest
    else if st.lower ≤ b ∧ b ≤ st.upper then
      if st.needed = 1 then
        utf16Units (st.acc * 0x40 + (b - 0x80)) ++ utf8DecodeAux utf8Init rest
      else
        utf8DecodeAux ⟨st.needed - 1, st.acc * 0x40 + (b - 0x80), 0x80, 0xBF⟩ rest
    else
      0xFFFD :: ((utf8StartByte b).1 ++ utf8DecodeAux (utf8StartByte b).2 rest)

/-- `buffer.toString("utf8")`: bytes to UTF-16 code units, never failing. -/
def utf8Decode (bytes : List Nat) : List Nat :=
  utf8DecodeAux utf8Init bytes

/-- `parseAttributedBody(buffer)`.  A `null` buffer returns `null` at once; any
actual buffer (including the empty one, which is truthy in JavaScript) is
decoded and run through the two-stage extraction.  The `try/catch` of the
source cannot fire: `toString` replaces invalid sequences instead of throwing,
so the embedding is total. -/
def parseAttributedBody (blob : Option (List Nat)) : Option (List Nat) :=
  match blob with
  | none => none
  | some bs => parseText (utf8Decode bs)

/-- Variant of `parseText` following the words of the specification for claim
C4: step 5 keeps *everything after the first occurrence* of `"NSString"` in the
pre-`NSNumber` prefix (where the source keeps `split("NSString")[1]`, which
stops at the next occurrence).  All other steps are identical. -/
def parseTextSpecC4 (s : List Nat) : Option (List Nat) :=
  match splitFirst nsNumber s with
  | none => stage2 s
  | some (p, _) =>
    match splitFirst nsString p with
    | none => stage2 p
    | some (_, post) =>
      match splitFirst nsDictionary post with
      | none => stage2 post
      | some (span, _) =>
        if 18 < span.length then
          some (jsTrim ((span.take (span.length - 12)).drop 6))
        else stage2 span

/-- Number of positions of `s` at which `sep` occurs. -/
def occurrences (sep s : List Nat) : Nat :=
  ((List.range s.length).filter (fun i => leadsWith sep (s.drop i))).length

/-! ### Basic facts about `leadsWith`, `splitFirst` and `subSpan` -/

theorem leadsWith_iff {t s : List Nat} : leadsWith t s = true ↔ ∃ r, s = t ++ r := by
  induction t generalizing s with
  | nil => simp [leadsWith]
  | cons a as ih =>
    cases s with
    | nil => simp [leadsWith]
    | cons b bs =>
      simp only [leadsWith, Bool.and_eq_true, beq_iff_eq, List.cons_append,
        List.cons.injEq]
      constructor
      · rintro ⟨rfl, h⟩
        obtain ⟨r, rfl⟩ := ih.1 h
        exact ⟨r, rfl, rfl⟩
      · rintro ⟨r, rfl, rfl⟩
        exact ⟨rfl, ih.2 ⟨r, rfl⟩⟩

theorem splitFirst_eq {sep : List Nat} : ∀ {s p q : List Nat},
    splitFirst sep s = some (p, q) → s = p ++ sep ++ q := by
  intro s
  induction s with
  | nil => intro p q h; simp [splitFirst] at h
  | cons c rest ih =>
    intro p q h
    rw [splitFirst] at h
    by_cases hl : leadsWith sep (c :: rest) = true
    · rw [if_pos hl] at h
      obtain ⟨r, hr⟩ := leadsWith_iff.1 hl
      rw [Option.some.injEq, Prod.mk.injEq] at h
      obtain ⟨hp, hq⟩ := h
      subst hp
      subst hq
      rw [hr, List.nil_append, List.drop_left]
    · rw [if_neg hl] at h
      cases hrec : splitFirst sep rest with
      | none => rw [hrec] at h; cases h
      | some pq =>
        obtain ⟨p', q'⟩ := pq
        rw [hrec] at h
        rw [Option.some.injEq, Prod.mk.injEq] at h
        obtain ⟨hp, hq⟩ := h
        subst hp
        subst hq
        simp [ih hrec]

theorem splitFirst_isSome_append (sep : List Nat) (hne : sep ≠ []) :
    ∀ (u v : List Nat), (splitFirst sep (u ++ sep ++ v)).isSome := by
  intro u
  induction u with
  | nil =>
    intro v
    obtain ⟨c, cs, rfl⟩ := List.exists_cons_of_ne_nil hne
    rw [List.nil_append, List.cons_append, splitFirst]
    rw [if_pos (leadsWith_iff.2 ⟨v, by simp⟩)]
    rfl
  | cons a u' ih =>
    intro v
    rw [List.cons_append, List.cons_append, splitFirst]
    by_cases hl : leadsWith sep (a :: (u' ++ sep ++ v)) = true
    · rw [if_pos hl]; rfl
    · rw [if_neg hl]
      have h := ih v
      cases hrec : splitFirst sep (u' ++ sep ++ v) with
      | none => rw [hrec] at h; cases h
      | some pq => obtain ⟨p, q⟩ := pq; rfl

theorem splitFirst_none_not_subSpan {sep s : List Nat} (hne : sep ≠ [])
    (h : splitFirst sep s = none) : ¬ subSpan sep s := by
  rintro ⟨u, v, rfl⟩
  have hs := splitFirst_isSome_append sep hne u v
  rw [h] at hs
  cases hs

theorem splitFirst_eq_none {sep s : List Nat} (h : ¬ subSpan sep s) :
    splitFirst sep s = none := by
  cases hs : splitFirst sep s with
  | none => rfl
  | some pq =>
    obtain ⟨p, q⟩ := pq
    exact absurd ⟨p, q, splitFirst_eq hs⟩ h

theorem splitFirst_pre_not_subSpan {sep : List Nat} (hne : sep ≠ []) :
    ∀ {s p q : List Nat}, splitFirst sep s = some (p, q) → ¬ subSpan sep p := by
  intro s
  induction s with
  | nil => intro p q h; simp [splitFirst] at h
  | cons c rest ih =>
    intro p q h
    rw [splitFirst] at h
    by_cases hl : leadsWith sep (c :: rest) = true
    · rw [if_pos hl] at h
      rw [Option.some.injEq, Prod.mk.injEq] at h
      obtain ⟨hp, _⟩ := h
      subst hp
      rintro ⟨u, v, huv⟩
      obtain ⟨d, ds, rfl⟩ := List.exists_cons_of_ne_nil hne
      simp at huv
    · rw [if_neg hl] at h
      cases hrec : splitFirst sep rest with
      | none => rw [hrec] at h; cases h
      | some pq' =>
        obtain ⟨p', q'⟩ := pq'
        rw [hrec] at h
        rw [Option.some.injEq, Prod.mk.injEq] at h
        obtain ⟨hp, _⟩ := h
        subst hp
        rintro ⟨u, v, huv⟩
        cases u with
        | nil =>
          apply hl
          apply leadsWith_iff.2
          have hr := splitFirst_eq hrec
          rw [List.nil_append] at huv
          refine ⟨v ++ sep ++ q', ?_⟩
          calc c :: rest = c :: (p' ++ sep ++ q') := by rw [← hr]
            _ = (c :: p') ++ (sep ++ q') := by simp
            _ = (sep ++ v) ++ (sep ++ q') := by rw [huv]
            _ = sep ++ (v ++ sep ++ q') := by simp
        | cons a u' =>
          apply ih hrec
          rw [List.cons_append, List.cons_append, List.cons.injEq] at huv
          exact ⟨u', v, huv.2⟩

theorem subSpan_trans {a b c : List Nat} (h1 : subSpan a b) (h2 : subSpan b c) :
    subSpan a c := by
  obtain ⟨u, v, rfl⟩ := h1
  obtain ⟨x, y, rfl⟩ := h2
  exact ⟨x ++ u, v ++ y, by simp⟩

theorem subSpan_take (n : Nat) (s : List Nat) : subSpan (s.take n) s :=
  ⟨[], s.drop n, by simp⟩

theorem subSpan_drop (n : Nat) (s : List Nat) : subSpan (s.drop n) s :=
  ⟨s.take n, [], by simp⟩

theorem subSpan_takeWhile (p : Nat → Bool) (s : List Nat) :
    subSpan (s.takeWhile p) s :=
  ⟨[], s.dropWhile p, by simp⟩

theorem no_subSpan_part0 {sep : List Nat} (hne : sep ≠ []) (s : List Nat) :
    ¬ subSpan sep (part0 sep s) := by
  unfold part0
  cases h : splitFirst sep s with
  | none => exact splitFirst_none_not_subSpan hne h
  | some pq =>
    obtain ⟨p, q⟩ := pq
    exact splitFirst_pre_not_subSpan hne h

theorem part0_subSpan (sep s : List Nat) : subSpan (part0 sep s) s := by
  unfold part0
  cases h : splitFirst sep s with
  | none => exact ⟨[], [], by simp⟩
  | some pq =>
    obtain ⟨p, q⟩ := pq
    exact ⟨[], sep ++ q, by simpa using splitFirst_eq h⟩

/-! ### Facts about `jsTrim` -/

theorem dropWhile_head_not {p : Nat → Bool} :
    ∀ {c : Nat} {t : List Nat} {xs : List Nat},
      xs.dropWhile p = c :: t → p c = false := by
  intro c t xs
  induction xs with
  | nil => intro h; simp [List.dropWhile] at h
  | cons a as ih =>
    intro h
    by_cases hp : p a = true
    · rw [List.dropWhile_cons, if_pos hp] at h
      exact ih h
    · rw [List.dropWhile_cons, if_neg hp] at h
      rw [List.cons.injEq] at h
      rw [← h.1]
      exact Bool.eq_false_iff.2 hp

theorem dropWhile_eq_self_of_head {p : Nat → Bool} {l : List Nat}
    (h : ∀ c t, l = c :: t → p c = false) : l.dropWhile p = l := by
  cases l with
  | nil => simp
  | cons c t => rw [List.dropWhile_cons, if_neg (by simp [h c t rfl])]

theorem revSplit (p : Nat → Bool) (m : List Nat) :
    m = (m.reverse.dropWhile p).reverse ++ (m.reverse.takeWhile p).reverse := by
  conv_lhs => rw [← m.reverse_reverse, ← List.takeWhile_append_dropWhile p m.reverse]
  rw [List.reverse_append]

theorem jsTrim_leading (l : List Nat) :
    l.dropWhile isJsWs =
      jsTrim l ++ ((l.dropWhile isJsWs).reverse.takeWhile isJsWs).reverse := by
  simp only [jsTrim, dropTrailingWs]
  exact revSplit isJsWs (l.dropWhile isJsWs)

theorem dropTrailingWs_subSpan (l : List Nat) : subSpan (dropTrailingWs l) l := by
  refine ⟨[], (l.reverse.takeWhile isJsWs).reverse, ?_⟩
  simp only [dropTrailingWs, List.nil_append]
  exact revSplit isJsWs l

theorem jsTrim_subSpan (l : List Nat) : subSpan (jsTrim l) l := by
  have h1 : subSpan (jsTrim l) (l.dropWhile isJsWs) := dropTrailingWs_subSpan _
  have h2 : subSpan (l.dropWhile isJsWs) l :=
    ⟨l.takeWhile isJsWs, [], by simp⟩
  exact subSpan_trans h1 h2

theorem jsTrim_idem (l : List Nat) : jsTrim (jsTrim l) = jsTrim l := by
  have hrev : (jsTrim l).reverse = (l.dropWhile isJsWs).reverse.dropWhile isJsWs := by
    simp [jsTrim, dropTrailingWs]
  have hA : (jsTrim l).dropWhile isJsWs = jsTrim l := by
    apply dropWhile_eq_self_of_head
    intro c t hct
    have hm := jsTrim_leading l
    rw [hct] at hm
    exact dropWhile_head_not (by simpa using hm)
  have hB : dropTrailingWs (jsTrim l) = jsTrim l := by
    have hd : (jsTrim l).reverse.dropWhile isJsWs = (jsTrim l).reverse := by
      apply dropWhile_eq_self_of_head
      intro c t hct
      rw [hrev] at hct
      exact dropWhile_head_not hct
    rw [dropTrailingWs, hd, List.reverse_reverse]
  calc jsTrim (jsTrim l) = dropTrailingWs ((jsTrim l).dropWhile isJsWs) := rfl
    _ = dropTrailingWs (jsTrim l) := by rw [hA]
    _ = jsTrim l := hB

/-! ### Facts about the fallback regex and `parseText` -/

theorem nsString_ne_nil : nsString ≠ [] := by decide

theorem nsNumber_ne_nil : nsNumber ≠ [] := by decide

theorem nsDictionary_ne_nil : nsDictionary ≠ [] := by decide

theorem regexScanAux_none {s : List Nat} (h : ¬ subSpan nsString s) :
    ∀ fuel, regexScanAux fuel s = none := by
  intro fuel
  cases fuel with
  | zero => rfl
  | succ n =>
    rw [regexScanAux, splitFirst_eq_none h]

theorem regexScanAux_subSpan :
    ∀ {fuel : Nat} {s cap : List Nat}, regexScanAux fuel s = some cap → subSpan cap s := by
  intro fuel
  induction fuel with
  | zero => intro s cap h; cases h
  | succ n ih =>
    intro s cap h
    rw [regexScanAux] at h
    cases h1 : splitFirst nsString s with
    | none => simp only [h1] at h; cases h
    | some pr =>
      obtain ⟨pre, rest⟩ := pr
      simp only [h1] at h
      cases h2 : splitFirst [0] rest with
      | none => simp only [h2] at h; cases h
      | some ba =>
        obtain ⟨bn, afterNul⟩ := ba
        simp only [h2] at h
        have hs1 : subSpan rest s := ⟨pre ++ nsString, [], by simpa using splitFirst_eq h1⟩
        by_cases hc : afterNul.takeWhile (fun c => c != 0) = []
        · rw [if_pos hc] at h
          exact subSpan_trans (ih h) hs1
        · rw [if_neg hc] at h
          rw [Option.some.injEq] at h
          subst h
          have hs2 : subSpan afterNul rest :=
            ⟨bn ++ [0], [], by simpa using splitFirst_eq h2⟩
          exact subSpan_trans (subSpan_trans (subSpan_takeWhile _ _) hs2) hs1

theorem stage2_none {s : List Nat} (h : ¬ subSpan nsString s) : stage2 s = none := by
  rw [stage2, regexScan, regexScanAux_none h]

theorem stage2_subSpan {s t : List Nat} (h : stage2 s = some t) : subSpan t s := by
  rw [stage2, regexScan] at h
  cases hr : regexScanAux s.length s with
  | none => simp only [hr] at h; cases h
  | some cap =>
    simp only [hr] at h
    rw [Option.some.injEq] at h
    subst h
    exact subSpan_trans (jsTrim_subSpan cap) (regexScanAux_subSpan hr)

theorem stage2_trimmed {s t : List Nat} (h : stage2 s = some t) : jsTrim t = t := by
  rw [stage2, regexScan] at h
  cases hr : regexScanAux s.length s with
  | none => simp only [hr] at h; cases h
  | some cap =>
    simp only [hr] at h
    rw [Option.some.injEq] at h
    subst h
    exact jsTrim_idem cap

theorem parseText_trimmed : ∀ {s t : List Nat}, parseText s = some t → jsTrim t = t := by
  intro s t h
  rw [parseText] at h
  cases h1 : splitFirst nsNumber s with
  | none => simp only [h1] at h; exact stage2_trimmed h
  | some pr =>
    obtain ⟨p, r⟩ := pr
    simp only [h1] at h
    cases h2 : splitFirst nsString p with
    | none => simp only [h2] at h; exact stage2_trimmed h
    | some qp =>
      obtain ⟨q, post⟩ := qp
      simp only [h2] at h
      cases h3 : splitFirst nsDictionary (part0 nsString post) with
      | none => simp only [h3] at h; exact stage2_trimmed h
      | some sw =>
        obtain ⟨span, w⟩ := sw
        simp only [h3] at h
        by_cases h4 : 18 < span.length
        · rw [if_pos h4, Option.some.injEq] at h
          subst h
          exact jsTrim_idem _
        · rw [if_neg h4] at h
          exact stage2_trimmed h

theorem parseText_subSpan : ∀ {s t : List Nat}, parseText s = some t → subSpan t s := by
  intro s t h
  rw [parseText] at h
  cases h1 : splitFirst nsNumber s with
  | none => simp only [h1] at h; exact stage2_subSpan h
  | some pr =>
    obtain ⟨p, r⟩ := pr
    simp only [h1] at h
    have hps : subSpan p s := ⟨[], nsNumber ++ r, by simpa using splitFirst_eq h1⟩
    cases h2 : splitFirst nsString p with
    | none => simp only [h2] at h; exact subSpan_trans (stage2_subSpan h) hps
    | some qp =>
      obtain ⟨q, post⟩ := qp
      simp only [h2] at h
      have hpost : subSpan post s :=
        subSpan_trans ⟨q ++ nsString, [], by simpa using splitFirst_eq h2⟩ hps
      have hseg : subSpan (part0 nsString post) s :=
        subSpan_trans (part0_subSpan nsString post) hpost
      cases h3 : splitFirst nsDictionary (part0 nsString post) with
      | none => simp only [h3] at h; exact subSpan_trans (stage2_subSpan h) hseg
      | some sw =>
        obtain ⟨span, w⟩ := sw
        simp only [h3] at h
        have hspan : subSpan span s :=
          subSpan_trans ⟨[], nsDictionary ++ w, by simpa using splitFirst_eq h3⟩ hseg
        by_cases h4 : 18 < span.length
        · rw [if_pos h4, Option.some.injEq] at h
          subst h
          refine subSpan_trans (jsTrim_subSpan _) ?_
          refine subSpan_trans (subSpan_drop 6 _) ?_
          exact subSpan_trans (subSpan_take _ _) hspan
        · rw [if_neg h4] at h
          exact subSpan_trans (stage2_subSpan h) hspan

/-! ### Occurrence counting and first-occurrence computation -/

theorem occ_mem {sep x y : List Nat} (hne : sep ≠ []) :
    x.length ∈ (List.range (x ++ sep ++ y).length).filter
      (fun i => leadsWith sep ((x ++ sep ++ y).drop i)) := by
  rw [List.mem_filter]
  constructor
  · rw [List.mem_range]
    have hpos : 0 < sep.length := List.length_pos.2 hne
    simp only [List.length_append]
    omega
  · have hdrop : (x ++ sep ++ y).drop x.length = sep ++ y := by
      rw [List.append_assoc, List.drop_left]
    rw [hdrop]
    exact leadsWith_iff.2 ⟨y, rfl⟩

theorem occ_unique {sep s : List Nat} (hne : sep ≠ [])
    (hocc : occurrences sep s = 1) :
    ∀ {x y x' y' : List Nat}, s = x ++ sep ++ y → s = x' ++ sep ++ y' → x = x' := by
  intro x y x' y' h1 h2
  obtain ⟨a, ha⟩ := List.length_eq_one.1 hocc
  have m1 : x.length ∈ (List.range s.length).filter
      (fun i => leadsWith sep (s.drop i)) := by
    rw [h1]; exact occ_mem hne
  have m2 : x'.length ∈ (List.range s.length).filter
      (fun i => leadsWith sep (s.drop i)) := by
    rw [h2]; exact occ_mem hne
  rw [show ((List.range s.length).filter (fun i => leadsWith sep (s.drop i))) =
      [a] from ha] at m1 m2
  rw [List.mem_singleton] at m1 m2
  have hlen : x.length = x'.length := by rw [m1, m2]
  have t1 : x = s.take x.length := by
    rw [h1, List.append_assoc, List.take_left]
  have t2 : x' = s.take x'.length := by
    rw [h2, List.append_assoc, List.take_left]
  rw [t1, t2, hlen]

theorem splitFirst_of_unique {sep : List Nat} (hne : sep ≠ []) :
    ∀ (x y : List Nat),
      (∀ x' y', x ++ sep ++ y = x' ++ sep ++ y' → x' = x) →
      splitFirst sep (x ++ sep ++ y) = some (x, y) := by
  intro x
  induction x with
  | nil =>
    intro y _
    obtain ⟨c, cs, hcs⟩ := List.exists_cons_of_ne_nil hne
    rw [List.nil_append]
    rw [hcs, List.cons_append, splitFirst]
    rw [if_pos (leadsWith_iff.2 ⟨y, by simp⟩)]
    rw [Option.some.injEq, Prod.mk.injEq]
    refine ⟨rfl, ?_⟩
    rw [← List.cons_append, ← hcs, List.drop_left]
  | cons a x' ih =>
    intro y hu
    have hu' : ∀ x'' y'', x' ++ sep ++ y = x'' ++ sep ++ y'' → x'' = x' := by
      intro x'' y'' he
      have h2 := hu (a :: x'') y'' (by simp only [List.cons_append]; rw [he])
      rw [List.cons.injEq] at h2
      exact h2.2
    rw [List.cons_append, List.cons_append, splitFirst]
    have hl : ¬ leadsWith sep (a :: (x' ++ sep ++ y)) = true := by
      intro hlt
      obtain ⟨r, hr⟩ := leadsWith_iff.1 hlt
      have h2 := hu [] r (by simp only [List.cons_append, List.nil_append]; exact hr)
      cases h2
    rw [if_neg hl]
    rw [ih y hu']

theorem splitFirst_of_unique' {sep s x y : List Nat} (hne : sep ≠ [])
    (hs : s = x ++ sep ++ y)
    (hu : ∀ x' y', s = x' ++ sep ++ y' → x' = x) :
    splitFirst sep s = some (x, y) := by
  subst hs
  exact splitFirst_of_unique hne x y hu

/-! ### The claims -/

/-- Claim C2, counterexample: the decoder can return the empty string.  On the
bytes of `"NSString\x00 "` the fallback regex captures the single space, and
`" ".trim()` is empty, so `parseAttributedBody` returns the empty string rather
than `null` or a non-empty string. -/
theorem claim2_counterexample :
    parseAttributedBody (some (asciiUnits "NSString\x00 ")) = some [] := by decide

/-- Claim C2 as amended: `decode(null)` is `null`, and every non-null result
equals its own whitespace-trim; however the result may be the empty string (the
source returns `attributedBody.trim()` and `match[1].trim()` without checking
non-emptiness). -/
theorem claim2_trimmed_not_nonempty :
    parseAttributedBody none = none ∧
      ∀ bs t, parseAttributedBody (some bs) = some t → t = jsTrim t :=
  ⟨rfl, fun _ _ h => (parseText_trimmed h).symm⟩

/-- Witness for the amended claim C2 at a concrete input. -/
theorem claim2_witness :
    parseAttributedBody (some (asciiUnits "NSString\x00hello there\x00tail")) =
        some (asciiUnits "hello there") ∧
      asciiUnits "hello there" = jsTrim (asciiUnits "hello there") :=
  ⟨by decide, claim2_trimmed_not_nonempty.2 (asciiUnits "NSString\x00hello there\x00tail")
    (asciiUnits "hello there") (by decide)⟩

/-- Claim C3, counterexample: on the bytes of `"NSString\x00Hi\x00NSNumber"`
stage 1 aborts at the missing-`NSDictionary` checkpoint, but the decoder
returns `null` while the stage-2 pattern applied to the full original decoded
text yields `"Hi"` — the fallback runs on the truncated working string, not on
the full text. -/
theorem claim3_counterexample :
    splitFirst nsNumber (utf8Decode (asciiUnits "NSString\x00Hi\x00NSNumber")) =
        some (asciiUnits "NSString\x00Hi\x00", []) ∧
      splitFirst nsString (asciiUnits "NSString\x00Hi\x00") =
        some ([], asciiUnits "\x00Hi\x00") ∧
      splitFirst nsDictionary (part0 nsString (asciiUnits "\x00Hi\x00")) = none ∧
      parseAttributedBody (some (asciiUnits "NSString\x00Hi\x00NSNumber")) = none ∧
      stage2 (utf8Decode (asciiUnits "NSString\x00Hi\x00NSNumber")) =
        some (asciiUnits "Hi") := by
  refine ⟨by decide, by decide, by decide, by decide, by decide⟩

/-- Claim C3 as amended: when `NSNumber` is present, `NSString` occurs in the
pre-`NSNumber` prefix, but `NSDictionary` does not occur in the retained
segment, the decoder returns `null`: the fallback pattern is applied to the
truncated segment `split("NSString")[1]`, which can never contain `"NSString"`,
so it never matches. -/
theorem claim3_null_on_missing_nsdictionary (bs p r q post : List Nat)
    (h1 : splitFirst nsNumber (utf8Decode bs) = some (p, r))
    (h2 : splitFirst nsString p = some (q, post))
    (h3 : splitFirst nsDictionary (part0 nsString post) = none) :
    parseAttributedBody (some bs) = none := by
  show parseText (utf8Decode bs) = none
  rw [parseText]
  simp only [h1, h2, h3]
  exact stage2_none (no_subSpan_part0 nsString_ne_nil post)

/-- Witness for the amended claim C3 at a concrete input. -/
theorem claim3_witness :
    splitFirst nsNumber (utf8Decode (asciiUnits "aNSStringbNSNumber")) =
        some (asciiUnits "aNSStringb", []) ∧
      splitFirst nsString (asciiUnits "aNSStringb") =
        some (asciiUnits "a", asciiUnits "b") ∧
      splitFirst nsDictionary (part0 nsString (asciiUnits "b")) = none ∧
      parseAttributedBody (some (asciiUnits "aNSStringbNSNumber")) = none :=
  ⟨by decide, by decide, by decide,
    claim3_null_on_missing_nsdictionary (asciiUnits "aNSStringbNSNumber")
      (asciiUnits "aNSStringb") [] (asciiUnits "a") (asciiUnits "b")
      (by decide) (by decide) (by decide)⟩

/-- Claim C4, counterexample: with two `NSString` occurrences in the
pre-`NSNumber` prefix, the source keeps only the text between the first and
second occurrences (`split("NSString")[1]`) and here returns `null`, while the
variant that keeps everything after the first occurrence extracts a string —
so the step does not use everything after the first occurrence. -/
theorem claim4_counterexample :
    splitFirst nsNumber (utf8Decode (asciiUnits
        "NSStringZNSStringaaaaaaaaaaaaaaaaaaaaaaaaaNSDictionaryNSNumber")) =
      some (asciiUnits "NSStringZNSStringaaaaaaaaaaaaaaaaaaaaaaaaaNSDictionary", []) ∧
    splitFirst nsString
        (asciiUnits "NSStringZNSStringaaaaaaaaaaaaaaaaaaaaaaaaaNSDictionary") =
      some ([], asciiUnits "ZNSStringaaaaaaaaaaaaaaaaaaaaaaaaaNSDictionary") ∧
    parseAttributedBody (some (asciiUnits
        "NSStringZNSStringaaaaaaaaaaaaaaaaaaaaaaaaaNSDictionaryNSNumber")) = none ∧
    parseTextSpecC4 (utf8Decode (asciiUnits
        "NSStringZNSStringaaaaaaaaaaaaaaaaaaaaaaaaaNSDictionaryNSNumber")) =
      some (asciiUnits "ingaaaaaaaaaaaaa") := by
  refine ⟨by decide, by decide, by decide, by decide⟩

/-- Claim C4 as amended: the text used after step 5 is the segment between the
first occurrence of `NSString` and the next one; it is everything after the
first occurrence exactly when `NSString` occurs only once in the pre-`NSNumber`
prefix, in which case the decoder agrees with the spec-worded variant. -/
theorem claim4_single_occurrence (bs p r q post : List Nat)
    (h1 : splitFirst nsNumber (utf8Decode bs) = some (p, r))
    (h2 : splitFirst nsString p = some (q, post))
    (h3 : splitFirst nsString post = none) :
    parseAttributedBody (some bs) = parseTextSpecC4 (utf8Decode bs) := by
  show parseText (utf8Decode bs) = parseTextSpecC4 (utf8Decode bs)
  have hp0 : part0 nsString post = post := by rw [part0, h3]
  rw [parseText, parseTextSpecC4]
  simp only [h1, h2, hp0]

/-- Witness for the amended claim C4 at a concrete input. -/
theorem claim4_witness :
    splitFirst nsNumber (utf8Decode (asciiUnits
        "0NSString123456789012345678901234NSDictionaryNSNumber")) =
      some (asciiUnits "0NSString123456789012345678901234NSDictionary", []) ∧
    splitFirst nsString (asciiUnits "0NSString123456789012345678901234NSDictionary") =
      some (asciiUnits "0", asciiUnits "123456789012345678901234NSDictionary") ∧
    splitFirst nsString (asciiUnits "123456789012345678901234NSDictionary") = none ∧
    parseAttributedBody (some (asciiUnits
        "0NSString123456789012345678901234NSDictionaryNSNumber")) =
      parseTextSpecC4 (utf8Decode (asciiUnits
        "0NSString123456789012345678901234NSDictionaryNSNumber")) :=
  ⟨by decide, by decide, by decide,
    claim4_single_occurrence
      (asciiUnits "0NSString123456789012345678901234NSDictionaryNSNumber")
      (asciiUnits "0NSString123456789012345678901234NSDictionary") []
      (asciiUnits "0") (asciiUnits "123456789012345678901234NSDictionary")
      (by decide) (by decide) (by decide)⟩

/-- Claim C5: when the decoded text does not contain `NSNumber`, the result is
exactly the stage-2 pattern applied to the full decoded text (captured group
trimmed on a match, `null` otherwise). -/
theorem claim5_no_nsnumber (bs : List Nat)
    (h : ¬ subSpan nsNumber (utf8Decode bs)) :
    parseAttributedBody (some bs) = stage2 (utf8Decode bs) := by
  show parseText (utf8Decode bs) = stage2 (utf8Decode bs)
  rw [parseText, splitFirst_eq_none h]

/-- Witness for claim C5: the spec scenario input, which stage 2 resolves to
`"Simple text"`. -/
theorem claim5_witness :
    ¬ subSpan nsNumber (utf8Decode (asciiUnits
        "some_prefix_NSString\x00Simple text\x00more_data")) ∧
      parseAttributedBody (some (asciiUnits
        "some_prefix_NSString\x00Simple text\x00more_data")) =
        some (asciiUnits "Simple text") := by
  have hn : ¬ subSpan nsNumber (utf8Decode (asciiUnits
      "some_prefix_NSString\x00Simple text\x00more_data")) :=
    splitFirst_none_not_subSpan nsNumber_ne_nil (by decide)
  refine ⟨hn, ?_⟩
  rw [claim5_no_nsnumber _ hn]
  decide

/-- Claim C6: when stage 1 finds all three markers but the candidate span has
18 or fewer code units, the decoder returns `null` — the fallback regex then
runs on the span, which cannot contain `"NSString"`, so it never matches. -/
theorem claim6_short_span (bs p r q post span w : List Nat)
    (h1 : splitFirst nsNumber (utf8Decode bs) = some (p, r))
    (h2 : splitFirst nsString p = some (q, post))
    (h3 : splitFirst nsDictionary (part0 nsString post) = some (span, w))
    (h4 : span.length ≤ 18) :
    parseAttributedBody (some bs) = none := by
  show parseText (utf8Decode bs) = none
  rw [parseText]
  simp only [h1, h2, h3]
  rw [if_neg (by omega)]
  apply stage2_none
  intro hsub
  apply no_subSpan_part0 nsString_ne_nil post
  have hseg := splitFirst_eq h3
  exact subSpan_trans hsub ⟨[], nsDictionary ++ w, by simpa using hseg⟩

/-- Witness for claim C6 at a concrete input with a 3-unit span. -/
theorem claim6_witness :
    splitFirst nsNumber (utf8Decode (asciiUnits "xNSStringabcNSDictionaryNSNumber")) =
        some (asciiUnits "xNSStringabcNSDictionary", []) ∧
      splitFirst nsString (asciiUnits "xNSStringabcNSDictionary") =
        some (asciiUnits "x", asciiUnits "abcNSDictionary") ∧
      splitFirst nsDictionary (part0 nsString (asciiUnits "abcNSDictionary")) =
        some (asciiUnits "abc", []) ∧
      (asciiUnits "abc").length ≤ 18 ∧
      parseAttributedBody (some (asciiUnits "xNSStringabcNSDictionaryNSNumber")) = none :=
  ⟨by decide, by decide, by decide, by decide,
    claim6_short_span (asciiUnits "xNSStringabcNSDictionaryNSNumber")
      (asciiUnits "xNSStringabcNSDictionary") [] (asciiUnits "x")
      (asciiUnits "abcNSDictionary") (asciiUnits "abc") []
      (by decide) (by decide) (by decide) (by decide)⟩

/-- Claim C7: the decoder is total — for every input (absent or any byte
sequence, including invalid UTF-8 and embedded NULs) it yields either `null`
or a string, never an error; in this embedding every failure path is the
`none` value. -/
theorem claim7_total (blob : Option (List Nat)) :
    parseAttributedBody blob = none ∨ ∃ t, parseAttributedBody blob = some t := by
  cases h : parseAttributedBody blob with
  | none => exact Or.inl rfl
  | some t => exact Or.inr ⟨t, rfl⟩

/-- Claim C8: a `null` buffer yields `null` with no decoding attempted, and the
zero-length buffer also yields `null` (it passes the truthiness guard, decodes
to the empty text, and both stages fail on it). -/
theorem claim8_null_and_empty :
    parseAttributedBody none = none ∧ parseAttributedBody (some []) = none :=
  ⟨rfl, by decide⟩

/-- Claim C9: every non-null result of the decoder equals its own
JavaScript-whitespace trim, i.e. it has no leading or trailing whitespace. -/
theorem claim9_trimmed (bs t : List Nat)
    (h : parseAttributedBody (some bs) = some t) : jsTrim t = t :=
  parseText_trimmed h

/-- Witness for claim C9 at a concrete input whose capture has surrounding
whitespace. -/
theorem claim9_witness :
    parseAttributedBody (some (asciiUnits "padNSString\x00  spaced txt  \x00x")) =
        some (asciiUnits "spaced txt") ∧
      jsTrim (asciiUnits "spaced txt") = asciiUnits "spaced txt" :=
  ⟨by decide, claim9_trimmed (asciiUnits "padNSString\x00  spaced txt  \x00x")
    (asciiUnits "spaced txt") (by decide)⟩

/-- Claim C10: every non-null result is a contiguous span of the UTF-8
decoding of the input bytes — both stages only select and trim a span, never
synthesize or reorder code units. -/
theorem claim10_substring (bs t : List Nat)
    (h : parseAttributedBody (some bs) = some t) : subSpan t (utf8Decode bs) :=
  parseText_subSpan h

/-- Witness for claim C10 at a concrete stage-1 input. -/
theorem claim10_witness :
    parseAttributedBody (some (asciiUnits
        "QQNSStringABCDEFinner textZZZZZZZZZZZZNSDictionaryWWNSNumberVV")) =
        some (asciiUnits "inner text") ∧
      subSpan (asciiUnits "inner text") (utf8Decode (asciiUnits
        "QQNSStringABCDEFinner textZZZZZZZZZZZZNSDictionaryWWNSNumberVV")) :=
  ⟨by decide, claim10_substring (asciiUnits
      "QQNSStringABCDEFinner textZZZZZZZZZZZZNSDictionaryWWNSNumberVV")
    (asciiUnits "inner text") (by decide)⟩

/-- Claim C1: if the decoded text contains exactly one occurrence of each of
`NSString`, `NSDictionary` and `NSNumber`, in that textual order, and the span
`b` strictly between `NSString` and `NSDictionary` is longer than 18 code
units, the decoder returns `b` with its first 6 and last 12 code units removed
and whitespace-trimmed.  The threshold is strict: the hypothesis `18 < length`
admits spans of exactly 19 units. -/
theorem claim1_marker_extraction (bs a b c d : List Nat)
    (hdec : utf8Decode bs = a ++ nsString ++ b ++ nsDictionary ++ c ++ nsNumber ++ d)
    (h1 : occurrences nsString (utf8Decode bs) = 1)
    (h2 : occurrences nsDictionary (utf8Decode bs) = 1)
    (h3 : occurrences nsNumber (utf8Decode bs) = 1)
    (hlen : 18 < b.length) :
    parseAttributedBody (some bs) =
      some (jsTrim ((b.take (b.length - 12)).drop 6)) := by
  show parseText (utf8Decode bs) = _
  rw [hdec] at h1 h2 h3
  rw [hdec]
  have hA : splitFirst nsNumber
      (a ++ nsString ++ b ++ nsDictionary ++ c ++ nsNumber ++ d) =
      some (a ++ nsString ++ b ++ nsDictionary ++ c, d) := by
    refine splitFirst_of_unique' nsNumber_ne_nil rfl ?_
    intro x' y' h'
    exact (occ_unique nsNumber_ne_nil h3 rfl h').symm
  have hB : splitFirst nsString (a ++ nsString ++ b ++ nsDictionary ++ c) =
      some (a, b ++ nsDictionary ++ c) := by
    refine splitFirst_of_unique' nsString_ne_nil (by simp [List.append_assoc]) ?_
    intro x' y' h'
    have hs1 : a ++ nsString ++ b ++ nsDictionary ++ c ++ nsNumber ++ d =
        a ++ nsString ++ (b ++ nsDictionary ++ c ++ nsNumber ++ d) := by
      simp [List.append_assoc]
    have hs2 : a ++ nsString ++ b ++ nsDictionary ++ c ++ nsNumber ++ d =
        x' ++ nsString ++ (y' ++ nsNumber ++ d) := by
      calc a ++ nsString ++ b ++ nsDictionary ++ c ++ nsNumber ++ d
          = (a ++ nsString ++ b ++ nsDictionary ++ c) ++ nsNumber ++ d := rfl
        _ = (x' ++ nsString ++ y') ++ nsNumber ++ d := by rw [h']
        _ = x' ++ nsString ++ (y' ++ nsNumber ++ d) := by simp [List.append_assoc]
    exact (occ_unique nsString_ne_nil h1 hs1 hs2).symm
  have hC : splitFirst nsString (b ++ nsDictionary ++ c) = none := by
    apply splitFirst_eq_none
    rintro ⟨u, v, huv⟩
    have hs1 : a ++ nsString ++ b ++ nsDictionary ++ c ++ nsNumber ++ d =
        a ++ nsString ++ (b ++ nsDictionary ++ c ++ nsNumber ++ d) := by
      simp [List.append_assoc]
    have hs2 : a ++ nsString ++ b ++ nsDictionary ++ c ++ nsNumber ++ d =
        (a ++ nsString ++ u) ++ nsString ++ (v ++ nsNumber ++ d) := by
      calc a ++ nsString ++ b ++ nsDictionary ++ c ++ nsNumber ++ d
          = (a ++ nsString ++ (b ++ nsDictionary ++ c)) ++ nsNumber ++ d := by
            simp [List.append_assoc]
        _ = (a ++ nsString ++ (u ++ nsString ++ v)) ++ nsNumber ++ d := by rw [huv]
        _ = (a ++ nsString ++ u) ++ nsString ++ (v ++ nsNumber ++ d) := by
            simp [List.append_assoc]
    have heq := occ_unique nsString_ne_nil h1 hs1 hs2
    have hl := congrArg List.length heq
    rw [List.length_append, List.length_append] at hl
    have h8 : nsString.length = 8 := by decide
    omega
  have hseg : part0 nsString (b ++ nsDictionary ++ c) = b ++ nsDictionary ++ c := by
    rw [part0, hC]
  have hD : splitFirst nsDictionary (b ++ nsDictionary ++ c) = some (b, c) := by
    refine splitFirst_of_unique' nsDictionary_ne_nil rfl ?_
    intro x' y' h'
    have hs1 : a ++ nsString ++ b ++ nsDictionary ++ c ++ nsNumber ++ d =
        (a ++ nsString ++ b) ++ nsDictionary ++ (c ++ nsNumber ++ d) := by
      simp [List.append_assoc]
    have hs2 : a ++ nsString ++ b ++ nsDictionary ++ c ++ nsNumber ++ d =
        (a ++ nsString ++ x') ++ nsDictionary ++ (y' ++ nsNumber ++ d) := by
      calc a ++ nsString ++ b ++ nsDictionary ++ c ++ nsNumber ++ d
          = (a ++ nsString ++ (b ++ nsDictionary ++ c)) ++ nsNumber ++ d := by
            simp [List.append_assoc]
        _ = (a ++ nsString ++ (x' ++ nsDictionary ++ y')) ++ nsNumber ++ d := by rw [h']
        _ = (a ++ nsString ++ x') ++ nsDictionary ++ (y' ++ nsNumber ++ d) := by
            simp [List.append_assoc]
    have heq := occ_unique nsDictionary_ne_nil h2 hs1 hs2
    exact (List.append_cancel_left heq).symm
  rw [parseText]
  simp only [hA, hB, hseg, hD]
  rw [if_pos hlen]

/-- Witness for claim C1: the spec scenario input, extracting `"Hello World"`
from a 29-unit candidate span. -/
theorem claim1_witness :
    utf8Decode (asciiUnits
        "prefix_NSString______Hello World____________NSDictionary_suffix_NSNumber_more") =
      asciiUnits "prefix_" ++ nsString ++ asciiUnits "______Hello World____________" ++
        nsDictionary ++ asciiUnits "_suffix_" ++ nsNumber ++ asciiUnits "_more" ∧
    occurrences nsString (utf8Decode (asciiUnits
        "prefix_NSString______Hello World____________NSDictionary_suffix_NSNumber_more")) = 1 ∧
    occurrences nsDictionary (utf8Decode (asciiUnits
        "prefix_NSString______Hello World____________NSDictionary_suffix_NSNumber_more")) = 1 ∧
    occurrences nsNumber (utf8Decode (asciiUnits
        "prefix_NSString______Hello World____________NSDictionary_suffix_NSNumber_more")) = 1 ∧
    18 < (asciiUnits "______Hello World____________").length ∧
    parseAttributedBody (some (asciiUnits
        "prefix_NSString______Hello World____________NSDictionary_suffix_NSNumber_more")) =
      some (asciiUnits "Hello World") := by
  refine ⟨by decide, by decide, by decide, by decide, by decide, ?_⟩
  have h := claim1_marker_extraction
    (asciiUnits
      "prefix_NSString______Hello World____________NSDictionary_suffix_NSNumber_more")
    (asciiUnits "prefix_") (asciiUnits "______Hello World____________")
    (asciiUnits "_suffix_") (asciiUnits "_more")
    (by decide) (by decide) (by decide) (by decide) (by decide)
  rw [h]
  decide
